import Mathlib

set_option maxRecDepth 100000

/-!
Verification of the Smart-Segment feature-significance analyzer
(src/feature_analysis.py) against its specification.

The embedding models a pandas DataFrame as a list of named columns; a
numeric (int64/float64) column is a list of optional rationals (missing
values / NaN are `none`), an object column is a list of optional strings.
Machine floats are modelled by exact rationals: none of the verified
claims depends on rounding of float arithmetic, only on comparisons,
counts, branch selection and ordering.

The scipy statistical routines compute real-valued p-values; the
embedding treats each of them as an opaque deterministic function (a
`StatsOracle` field) of exactly the data the source passes to it.  Every
claim below concerns the routing logic, labels, group counts, scaling and
ordering, never the numeric p-value itself, so all theorems are
quantified over the oracle.  The conditions that drive the routing
(expected cell frequencies, coefficient of variation, skewness) are
computed exactly in rational arithmetic; square roots are eliminated by
squaring (documented at each definition).

Fallible scipy calls are modelled in the `Except String` monad:
`fisher_exact` raises unless the contingency table is 2x2, and
`mannwhitneyu` raises on an empty sample.
-/

/-- A column of a DataFrame: numeric storage (int64/float64, `none` = NaN)
or object storage (`none` = missing). -/
inductive Column
  | numCol (vals : List (Option ℚ))
  | strCol (vals : List (Option String))
deriving DecidableEq

/-- Number of rows of a column. -/
def Column.length : Column → ℕ
  | Column.numCol vs => vs.length
  | Column.strCol vs => vs.length

/-- A DataFrame: named columns in order.  (Well-formed frames have all
columns of equal length; theorems that need this carry it as a
hypothesis.) -/
abbrev DataFrame := List (String × Column)

/-- Column lookup, `df[name]`. -/
def lookupCol (df : DataFrame) (name : String) : Option Column :=
  (df.find? (fun c => c.1 == name)).map (fun c => c.2)

/-- The column names, `df.columns`. -/
def colNames (df : DataFrame) : List String :=
  df.map (fun c => c.1)

/-- Row count `len(df)`: the row count, read off the first column. -/
def nrows (df : DataFrame) : ℕ :=
  match df with
  | [] => 0
  | c :: _ => c.2.length

/-- Distinct elements in order of first appearance (the order `pandas`
`unique()` uses). -/
def firstUniques {α : Type} [DecidableEq α] (l : List α) : List α :=
  l.foldl (fun acc x => if x ∈ acc then acc else acc ++ [x]) []

/-- Distinct-count `Series.nunique()`: distinct non-missing values. -/
def Column.nunique : Column → ℕ
  | Column.numCol vs => (firstUniques (vs.filterMap id)).length
  | Column.strCol vs => (firstUniques (vs.filterMap id)).length

/-- A candidate split value: a numeric threshold/category or an object
category; `none` is NaN / missing. -/
inductive SplitVal
  | numV (v : Option ℚ)
  | strV (v : Option String)
deriving DecidableEq

/-- Observed values `Series.unique()`: distinct values in first-appearance order, missing
included (pandas keeps one NaN). -/
def Column.uniqueVals : Column → List SplitVal
  | Column.numCol vs => (firstUniques vs).map SplitVal.numV
  | Column.strCol vs => (firstUniques vs).map SplitVal.strV

/-- pandas `>` on possibly-missing numbers: any comparison with NaN is
false. -/
def optGt : Option ℚ → Option ℚ → Bool
  | some a, some b => decide (b < a)
  | _, _ => false

/-- pandas `<=` on possibly-missing numbers: any comparison with NaN is
false. -/
def optLe : Option ℚ → Option ℚ → Bool
  | some a, some b => decide (a ≤ b)
  | _, _ => false

/-- pandas `==` on possibly-missing numbers: NaN is equal to nothing,
not even itself. -/
def optEqQ : Option ℚ → Option ℚ → Bool
  | some a, some b => decide (a = b)
  | _, _ => false

/-- pandas `==` on possibly-missing strings (same missing semantics). -/
def optEqS : Option String → Option String → Bool
  | some a, some b => a == b
  | _, _ => false

/-- The boolean mask `df[feature] == split_value` of a one-vs-rest
(discrete) split.  Comparing across storage types is elementwise false,
as in pandas.  The `!=` mask of group B is the elementwise negation. -/
def discMask : Column → SplitVal → List Bool
  | Column.numCol vs, SplitVal.numV v => vs.map (fun x => optEqQ x v)
  | Column.strCol vs, SplitVal.strV v => vs.map (fun x => optEqS x v)
  | Column.numCol vs, SplitVal.strV _ => vs.map (fun _ => false)
  | Column.strCol vs, SplitVal.numV _ => vs.map (fun _ => false)

/-- Group A mask of a candidate split: `feature > threshold` for a
continuous split (strictly greater; rows with NaN in neither group),
`feature == value` for a discrete split.  The continuous case is only
ever used on numeric columns; the source would raise on anything else
and `calculate_split_statistics` guards that path. -/
def group_a_mask (col : Column) (sv : SplitVal) (feature_type : String) : List Bool :=
  if feature_type = "continuous" then
    match col, sv with
    | Column.numCol vs, SplitVal.numV t => vs.map (fun v => optGt v t)
    | _, _ => []
  else
    discMask col sv

/-- Group B mask: `feature <= threshold` for a continuous split,
`feature != value` for a discrete split. -/
def group_b_mask (col : Column) (sv : SplitVal) (feature_type : String) : List Bool :=
  if feature_type = "continuous" then
    match col, sv with
    | Column.numCol vs, SplitVal.numV t => vs.map (fun v => optLe v t)
    | _, _ => []
  else
    (discMask col sv).map (fun b => !b)

/-- The target values of the rows a mask selects
(`df[mask][target_col]`). -/
def selectMask (mask : List Bool) (tv : List ℚ) : List ℚ :=
  ((mask.zip tv).filter (fun p => p.1)).map (fun p => p.2)

/-- The target column as a list of rationals.  Model restriction: the
target must be a fully observed numeric column — the upstream layer
coerces a binary target before analysis, a non-numeric target would make
`Series.mean()` raise, and no verified claim exercises a target with
missing values. -/
def targetVals : Column → Option (List ℚ)
  | Column.numCol vs => if vs.all (fun v => v.isSome) then some (vs.filterMap id) else none
  | Column.strCol _ => none

/-- Arithmetic mean.  On the empty list rational division yields 0 where
pandas yields NaN; on every path of the source that returns a result the
groups fed to `mean` are nonempty (an empty group makes the selected
test raise first). -/
def qmean (l : List ℚ) : ℚ := l.sum / (l.length : ℚ)

/-- Second central moment (population variance, `np.std(data)^2`). -/
def qm2 (l : List ℚ) : ℚ :=
  ((l.map (fun x => (x - qmean l) ^ 2)).sum) / (l.length : ℚ)

/-- Third central moment. -/
def qm3 (l : List ℚ) : ℚ :=
  ((l.map (fun x => (x - qmean l) ^ 3)).sum) / (l.length : ℚ)

/-- The source helper `check_variability`: false when fewer than 2 points;
otherwise the coefficient of variation `cv = np.std(data)/np.mean(data)`
(0 when the mean is 0) must be at least 0.01.  Square roots are
eliminated exactly: for mean > 0, `std/mean >= 1/100` iff
`m2 >= (mean/100)^2`; for mean = 0 the source sets cv = 0 < 0.01; for
mean < 0, cv = std/mean <= 0 < 0.01.  So the check holds iff mean > 0
and `m2 >= (mean/100)^2`. -/
def check_variability (data : List ℚ) : Bool :=
  if data.length < 2 then false
  else if qmean data ≤ 0 then false
  else decide ((qmean data / 100) ^ 2 ≤ qm2 data)

/-- Whether `|scipy.stats.skew(data)| > 2`, squared exactly: skew = m3/m2^(3/2),
so |skew| > 2 iff m3^2 > 4*m2^3 (for m2 > 0; the source only evaluates
skewness after the variability check, which forces m2 > 0). -/
def skewAbsGt2 (data : List ℚ) : Bool :=
  decide (4 * qm2 data ^ 3 < qm3 data ^ 2)

/-- Count of rows of the crosstab row `b` (row sums of the 2x2 table). -/
def rowCount (mask : List Bool) (b : Bool) : ℕ :=
  (mask.filter (fun x => x == b)).length

/-- Cell count of the contingency table `crosstab(mask, target)`. -/
def pairCount (mask : List Bool) (tv : List ℚ) (b : Bool) (v : ℚ) : ℕ :=
  ((mask.zip tv).filter (fun p => p.1 == b && decide (p.2 = v))).length

/-- The check `np.any(scipy.stats.contingency.expected_freq(crosstab) < 5)`:
expected cell = rowTotal * colTotal / n, over the rows actually present
in the crosstab (False before True, as crosstab sorts its index) and the
distinct target values. -/
def anyExpectedLt5 (mask : List Bool) (tv : List ℚ) : Bool :=
  let tvals := firstUniques tv
  let rows := (if mask.any (fun b => !b) then [false] else [])
      ++ (if mask.any (fun b => b) then [true] else [])
  rows.any (fun b =>
    tvals.any (fun v =>
      decide ((rowCount mask b : ℚ) * ((tv.count v : ℕ) : ℚ) / ((mask.length : ℕ) : ℚ) < 5)))

/-- The opaque real-valued scipy routines, as deterministic functions of
exactly the data the source hands them.  `fisherP` takes the four cells
of the 2x2 table, `zTestP` the two group proportions and sizes,
`mannwhitneyP` and `welchP` the two samples. -/
structure StatsOracle where
  fisherP : ℕ → ℕ → ℕ → ℕ → ℚ
  zTestP : ℚ → ℚ → ℕ → ℕ → ℚ
  mannwhitneyP : List ℚ → List ℚ → ℚ
  welchP : List ℚ → List ℚ → ℚ

/-- A concrete oracle (all p-values 1/2) used to evaluate the model on
concrete inputs. -/
def trivOracle : StatsOracle :=
  { fisherP := fun _ _ _ _ => 1/2
    zTestP := fun _ _ _ _ => 1/2
    mannwhitneyP := fun _ _ => 1/2
    welchP := fun _ _ => 1/2 }

/-- The call `scipy.stats.fisher_exact(crosstab(mask, target))`: raises unless
the table is 2x2, i.e. unless both mask values occur (the target is
binary on every path that calls this). -/
def fisher_test (o : StatsOracle) (mask : List Bool) (tv : List ℚ)
    (label : String) : Except String (ℚ × String) :=
  if mask.any (fun b => !b) && mask.any (fun b => b) then
    let tvals := firstUniques tv
    let v0 := tvals.getD 0 0
    let v1 := tvals.getD 1 0
    Except.ok (o.fisherP (pairCount mask tv false v0) (pairCount mask tv false v1)
      (pairCount mask tv true v0) (pairCount mask tv true v1), label)
  else
    Except.error "ValueError: fisher_exact requires a 2x2 contingency table"

/-- The call `scipy.stats.mannwhitneyu(ga, gb, alternative="two-sided")`: raises
on an empty sample. -/
def mannwhitney_test (o : StatsOracle) (ga gb : List ℚ)
    (label : String) : Except String (ℚ × String) :=
  if ga.isEmpty || gb.isEmpty then
    Except.error "ValueError: mannwhitneyu requires nonempty samples"
  else
    Except.ok (o.mannwhitneyP ga gb, label)

/-- The continuous-target branch of the adaptive selector.  The source
duplicates this ladder verbatim in the continuous-feature and
discrete-feature branches; it is factored here once.  The source's
`except RuntimeWarning` fallback around the skewness computation is
unreachable (a Python warning is not an exception) and is omitted. -/
def continuous_target_test (o : StatsOracle) (ga gb : List ℚ)
    (total_n n_a n_b : ℕ) : Except String (ℚ × String) :=
  if total_n < 30 ∨ n_a < 30 ∨ n_b < 30 then
    mannwhitney_test o ga gb "Mann-Whitney U test (small sample)"
  else if !(check_variability ga && check_variability gb) then
    mannwhitney_test o ga gb "Mann-Whitney U test (low variability)"
  else if skewAbsGt2 ga || skewAbsGt2 gb then
    mannwhitney_test o ga gb "Mann-Whitney U test (skewed data)"
  else
    Except.ok (o.welchP ga gb, "Welch\x27s t-test")

/-- The binary-target, discrete-feature branch of the adaptive selector:
Fisher when any expected frequency is below 5 or any size is small,
otherwise a two-proportion z-test. -/
def discrete_binary_test (o : StatsOracle) (mask : List Bool) (tv : List ℚ)
    (total_n n_a n_b : ℕ) (p_a p_b : ℚ) : Except String (ℚ × String) :=
  if anyExpectedLt5 mask tv = true ∨ total_n < 30 ∨ n_a < 30 ∨ n_b < 30 then
    fisher_test o mask tv "Fisher\x27s exact test (small sample or expected freq < 5)"
  else
    Except.ok (o.zTestP p_a p_b n_a n_b, "Two-proportion z-test")

/-- Renders a natural number below 100 on two digits. -/
def natPad2 (n : ℕ) : String :=
  if n < 10 then "0" ++ toString n else toString n

/-- Renders a rational to two decimal places (rounding half away from
zero; the source formats a float with `:.2f` — no claim depends on the
rendered rule text). -/
def fmt2 (q : ℚ) : String :=
  let aq : ℚ := |q|
  let c : ℤ := Int.floor (aq * 100 + 1/2)
  (if q < 0 then "-" else "") ++ toString (c / 100) ++ "." ++ natPad2 ((c % 100).toNat)

/-- Renders a threshold, `nan` for a missing one. -/
def fmt2opt : Option ℚ → String
  | some q => fmt2 q
  | none => "nan"

/-- Renders a discrete split value the way Python interpolates it into
the rule string (approximate; no claim depends on it). -/
def renderSplitVal : SplitVal → String
  | SplitVal.numV (some q) => toString q
  | SplitVal.numV none => "nan"
  | SplitVal.strV (some s) => s
  | SplitVal.strV none => "None"

/-- The sort mode of the analyzer. -/
inductive SortMode
  | impact
  | p_value
deriving DecidableEq

/-- The core output record of the analyzer (all fields as in the
source's dataclass). -/
structure SplitResult where
  feature : String
  feature_type : String
  rule : String
  group_a_rate : ℚ
  group_b_rate : ℚ
  effect_size : ℚ
  p_value : ℚ
  is_significant : Bool
  test_method : String
  group_a_count : ℕ
  group_b_count : ℕ
  target_type : String
deriving DecidableEq

/-- Assembles the `SplitResult` exactly as the source's final
constructor call: rates and effect size are scaled by 100 for a binary
target, `is_significant` is `p_value < significance_level`. -/
def mkSplitResult (feature feature_type rule : String) (ra rb : ℚ) (p : ℚ)
    (significance_level : ℚ) (test_method : String) (n_a n_b : ℕ)
    (target_type : String) : SplitResult :=
  { feature := feature
    feature_type := feature_type
    rule := rule
    group_a_rate := if target_type = "binary" then ra * 100 else ra
    group_b_rate := if target_type = "binary" then rb * 100 else rb
    effect_size := if target_type = "binary" then |ra - rb| * 100 else |ra - rb|
    p_value := p
    is_significant := decide (p < significance_level)
    test_method := test_method
    group_a_count := n_a
    group_b_count := n_b
    target_type := target_type }

/-- Whether a continuous-type split is well typed: a numeric column with
a numeric threshold (anything else would raise in pandas). -/
def contShapeOk : Column → SplitVal → Bool
  | Column.numCol _, SplitVal.numV _ => true
  | _, _ => false

/-- The rule string of a split, `"feature > t"` or `"feature = v"`. -/
def split_rule (feature : String) (split_value : SplitVal)
    (feature_type : String) : String :=
  if feature_type = "continuous" then
    feature ++ " > " ++ (match split_value with
      | SplitVal.numV t => fmt2opt t
      | SplitVal.strV s => renderSplitVal (SplitVal.strV s))
  else
    feature ++ " = " ++ renderSplitVal split_value

/-- The adaptive test selection of `_calculate_split_statistics`: the
choice between the binary-target branches (Fisher / two-proportion
z-test) and the continuous-target ladder, on the groups of the given
split.  The target is binary when it has exactly two distinct values. -/
def split_test_result (o : StatsOracle) (df : DataFrame) (tv : List ℚ)
    (fcol : Column) (sv : SplitVal) (ft : String) : Except String (ℚ × String) :=
  let maskA := group_a_mask fcol sv ft
  let maskB := group_b_mask fcol sv ft
  let ga := selectMask maskA tv
  let gb := selectMask maskB tv
  let n_a := maskA.count true
  let n_b := maskB.count true
  let total_n := nrows df
  if (firstUniques tv).length = 2 then
    if ft = "continuous" then
      if total_n < 30 ∨ n_a < 30 ∨ n_b < 30 then
        fisher_test o maskA tv "Fisher\x27s exact test (small sample)"
      else
        Except.ok (o.zTestP (qmean ga) (qmean gb) n_a n_b, "Two-proportion z-test")
    else
      discrete_binary_test o maskA tv total_n n_a n_b (qmean ga) (qmean gb)
  else
    continuous_target_test o ga gb total_n n_a n_b

/-- The source method `FeatureAnalyzer._calculate_split_statistics`.  Accessing an absent
target column raises (`KeyError`) exactly here, the first time the
target is read.  A continuous-type split on a non-numeric column would
raise in pandas and is a guarded error.  (The source computes the masks,
group means and counts once and reuses them; the model recomputes the
same expressions, which is semantically identical.) -/
def calculate_split_statistics (o : StatsOracle) (df : DataFrame)
    (target_col : String) (significance_level : ℚ) (feature : String)
    (split_value : SplitVal) (feature_type : String) :
    Except String SplitResult :=
  match lookupCol df target_col with
  | none => Except.error ("KeyError: " ++ target_col)
  | some tcol =>
    match targetVals tcol with
    | none => Except.error ("TypeError: target column " ++ target_col
        ++ " must be numeric with no missing values")
    | some tv =>
      match lookupCol df feature with
      | none => Except.error ("KeyError: " ++ feature)
      | some fcol =>
        if feature_type = "continuous" ∧ contShapeOk fcol split_value = false then
          Except.error ("TypeError: invalid comparison for feature " ++ feature)
        else
          (split_test_result o df tv fcol split_value feature_type).map (fun pr =>
            mkSplitResult feature feature_type
              (split_rule feature split_value feature_type)
              (qmean (selectMask (group_a_mask fcol split_value feature_type) tv))
              (qmean (selectMask (group_b_mask fcol split_value feature_type) tv))
              pr.1 significance_level pr.2
              ((group_a_mask fcol split_value feature_type).count true)
              ((group_b_mask fcol split_value feature_type).count true)
              (if (firstUniques tv).length = 2 then "binary" else "continuous"))

/-- The analyzer state after construction: the frame, the parameters and
the classification computed once by `_classify_features`. -/
structure FeatureAnalyzer where
  df : DataFrame
  target_col : String
  significance_level : ℚ
  sort_mode : SortMode
  continuous_features : List String
  discrete_features : List String
deriving DecidableEq

/-- One column of the classification loop: skip the target, send a
numeric column with more than 10 distinct values to the continuous
bucket, everything else to the discrete bucket. -/
def classify_step (target_col : String) (acc : List String × List String)
    (c : String × Column) : List String × List String :=
  if c.1 = target_col then acc
  else
    match c.2 with
    | Column.numCol _ =>
      if 10 < c.2.nunique then (acc.1 ++ [c.1], acc.2)
      else (acc.1, acc.2 ++ [c.1])
    | Column.strCol _ => (acc.1, acc.2 ++ [c.1])

/-- The source method `FeatureAnalyzer._classify_features`: every non-target column is
continuous when numeric with more than 10 distinct values, discrete
otherwise.  Note the source performs no validation of the target name:
an absent target simply never matches and every column is classified. -/
def classify_features (df : DataFrame) (target_col : String) :
    List String × List String :=
  df.foldl (classify_step target_col) ([], [])

/-- The constructor `FeatureAnalyzer.__init__`: stores the arguments and runs the
classification.  It cannot fail. -/
def FeatureAnalyzer.make (df : DataFrame) (target_col : String)
    (significance_level : ℚ) (sort_mode : SortMode) : FeatureAnalyzer :=
  { df := df
    target_col := target_col
    significance_level := significance_level
    sort_mode := sort_mode
    continuous_features := (classify_features df target_col).1
    discrete_features := (classify_features df target_col).2 }

/-- Interpolated `np.percentile(xs_sorted, q)` with the default linear interpolation
on the sorted data: position `h = (n-1)*q/100`, value
`x_k + (h-k)*(x_(k+1) - x_k)` for `k = floor h`. -/
def np_percentile (xs : List ℚ) (q : ℚ) : ℚ :=
  let n := xs.length
  let h : ℚ := ((n : ℚ) - 1) * q / 100
  let k : ℕ := (Int.floor h).toNat
  let a := xs.getD k 0
  let b := xs.getD (k + 1) a
  a + (h - (k : ℚ)) * (b - a)

/-- The nine candidate thresholds
`np.percentile(df[feature], np.linspace(0.1, 0.9, 9) * 100)` of a
continuous feature: the 10%..90% percentiles.  `np.percentile`
propagates NaN, so a column with any missing value yields nine NaN
thresholds (and the empty column, on which numpy raises, is modelled the
same way — the downstream test then raises on the empty groups). -/
def percentile_thresholds (vs : List (Option ℚ)) : List (Option ℚ) :=
  if vs.all (fun v => v.isSome) ∧ vs ≠ [] then
    let xs := List.insertionSort (fun a b : ℚ => a ≤ b) (vs.filterMap id)
    (List.range 9).map (fun i => some (np_percentile xs (10 * ((i : ℚ) + 1))))
  else
    List.replicate 9 none

/-- Effectful map over a list, failing at the first raised exception —
the shape of every per-candidate loop of the source. -/
def mapME {α β : Type} (f : α → Except String β) : List α → Except String (List β)
  | [] => Except.ok []
  | a :: l =>
    match f a with
    | Except.error e => Except.error e
    | Except.ok b =>
      match mapME f l with
      | Except.error e => Except.error e
      | Except.ok r => Except.ok (b :: r)

/-- The source method `FeatureAnalyzer._analyze_discrete_feature`: one candidate per
distinct observed value of the feature. -/
def analyze_discrete_feature (o : StatsOracle) (a : FeatureAnalyzer)
    (feature : String) : Except String (List SplitResult) :=
  match lookupCol a.df feature with
  | none => Except.error ("KeyError: " ++ feature)
  | some col =>
    mapME (fun sv => calculate_split_statistics o a.df a.target_col
      a.significance_level feature sv "discrete") col.uniqueVals

/-- The continuous-feature candidate loop of `find_best_splits`: the
nine percentile thresholds, each scored. -/
def continuous_feature_splits (o : StatsOracle) (a : FeatureAnalyzer)
    (feature : String) : Except String (List SplitResult) :=
  match lookupCol a.df feature with
  | none => Except.error ("KeyError: " ++ feature)
  | some (Column.strCol _) =>
    Except.error ("TypeError: percentile of non-numeric column " ++ feature)
  | some (Column.numCol vs) =>
    mapME (fun t => calculate_split_statistics o a.df a.target_col
      a.significance_level feature (SplitVal.numV t) "continuous")
      (percentile_thresholds vs)

/-- All candidate results of `find_best_splits`, in generation order:
continuous features first (nine candidates each), then discrete features
(one candidate per distinct value).  No candidate is skipped. -/
def all_candidate_splits (o : StatsOracle) (a : FeatureAnalyzer) :
    Except String (List SplitResult) :=
  match mapME (continuous_feature_splits o a) a.continuous_features with
  | Except.error e => Except.error e
  | Except.ok conts =>
    match mapME (analyze_discrete_feature o a) a.discrete_features with
    | Except.error e => Except.error e
    | Except.ok discs => Except.ok (conts.flatten ++ discs.flatten)

/-- Ranking by effect size, descending (ties resolved stably, as by
Python's stable list sort). -/
def effectDesc (x y : SplitResult) : Prop := y.effect_size ≤ x.effect_size

instance : DecidableRel effectDesc :=
  fun x y => inferInstanceAs (Decidable (y.effect_size ≤ x.effect_size))

instance : IsTotal SplitResult effectDesc :=
  ⟨fun x y => le_total y.effect_size x.effect_size⟩

instance : IsTrans SplitResult effectDesc :=
  ⟨fun _ _ _ h1 h2 => le_trans h2 h1⟩

/-- Ranking by p-value, ascending. -/
def pAsc (x y : SplitResult) : Prop := x.p_value ≤ y.p_value

instance : DecidableRel pAsc :=
  fun x y => inferInstanceAs (Decidable (x.p_value ≤ y.p_value))

instance : IsTotal SplitResult pAsc :=
  ⟨fun x y => le_total x.p_value y.p_value⟩

instance : IsTrans SplitResult pAsc :=
  ⟨fun _ _ _ h1 h2 => le_trans h1 h2⟩

/-- The aggregation step of `find_best_splits`: partition by
significance, sort the significant part by the sort mode, the
non-significant part always by effect size descending, significant
first.  `insertionSort` is a stable sort, like Python's. -/
def rank_splits (sm : SortMode) (all : List SplitResult) : List SplitResult :=
  let significant := all.filter (fun s => s.is_significant)
  let non_significant := all.filter (fun s => !s.is_significant)
  (match sm with
    | SortMode.impact => List.insertionSort effectDesc significant
    | SortMode.p_value => List.insertionSort pAsc significant)
  ++ List.insertionSort effectDesc non_significant

/-- The source method `FeatureAnalyzer.find_best_splits(n_splits)`.  The source never
reads `n_splits`. -/
def find_best_splits (o : StatsOracle) (a : FeatureAnalyzer) (n_splits : ℕ) :
    Except String (List SplitResult) :=
  (all_candidate_splits o a).map (rank_splits a.sort_mode)

/-- One step of the dictionary fold of `get_top_splits_per_feature`:
insert the feature on first sight, replace only on a strictly larger
effect size. -/
def update_best (acc : List (String × SplitResult)) (s : SplitResult) :
    List (String × SplitResult) :=
  if (acc.find? (fun p => p.1 == s.feature)).isSome then
    acc.map (fun p =>
      if p.1 = s.feature ∧ p.2.effect_size < s.effect_size then (p.1, s) else p)
  else
    acc ++ [(s.feature, s)]

/-- The source method `FeatureAnalyzer.get_top_splits_per_feature` (a Python dict in
insertion order, modelled as an association list). -/
def get_top_splits_per_feature (o : StatsOracle) (a : FeatureAnalyzer) :
    Except String (List (String × SplitResult)) :=
  (find_best_splits o a 5).map (fun l => l.foldl update_best [])

/-- The source method `FeatureAnalyzer.get_all_category_splits`: rejects a feature that is
not classified discrete, otherwise scores every one-vs-rest split and
sorts by effect size descending. -/
def get_all_category_splits (o : StatsOracle) (a : FeatureAnalyzer)
    (feature : String) : Except String (List SplitResult) :=
  if feature ∈ a.discrete_features then
    (analyze_discrete_feature o a feature).map (List.insertionSort effectDesc)
  else
    Except.error ("ValueError: Feature " ++ feature ++ " is not a category variable")

/-! ### Concrete datasets used to evaluate the model -/

/-- Four rows, a binary target `t` and a discrete feature `f` with a
single observed value, so the one-vs-rest split at that value has an
empty group B. -/
def dfC1 : DataFrame :=
  [("f", Column.strCol [some "x", some "x", some "x", some "x"]),
   ("t", Column.numCol [some 0, some 1, some 0, some 1])]

/-- The analyzer over `dfC1`. -/
def analyzerC1 : FeatureAnalyzer :=
  FeatureAnalyzer.make dfC1 "t" (1/20) SortMode.impact

/-- Two feature columns and no column named `t`: used to construct an
analyzer whose target column is absent from the dataset. -/
def dfC3 : DataFrame :=
  [("a", Column.strCol [some "u", some "v"]),
   ("b", Column.numCol [some 1, some 2])]

/-- Three rows, a continuous target `t` and a discrete feature `g`. -/
def dfA : DataFrame :=
  [("g", Column.strCol [some "x", some "x", some "y"]),
   ("t", Column.numCol [some 1, some 2, some 3])]

/-- The analyzer over `dfA`. -/
def analyzerA : FeatureAnalyzer :=
  FeatureAnalyzer.make dfA "t" (1/20) SortMode.impact

/-- An 11-row numeric column with 11 distinct values 1..11. -/
def cColB : Column :=
  Column.numCol ((List.range 11).map (fun i => some ((i : ℚ) + 1)))

/-- An 11-row discrete column alternating two categories. -/
def gColB : Column :=
  Column.strCol ((List.range 11).map
    (fun i => if i % 2 = 0 then some "x" else some "y"))

/-- Eleven rows, one continuous feature `c` (11 distinct numeric
values), one discrete feature `g`, a continuous target `t`. -/
def dfB : DataFrame :=
  [("c", cColB), ("g", gColB),
   ("t", Column.numCol ((List.range 11).map (fun i => some ((i : ℚ) + 1))))]

/-- The analyzer over `dfB`. -/
def analyzerB : FeatureAnalyzer :=
  FeatureAnalyzer.make dfB "t" (1/20) SortMode.impact

/-- A 60-row discrete feature column: 30 of `x`, then 30 of `y`. -/
def gColC2 : Column :=
  Column.strCol (List.replicate 30 (some "x") ++ List.replicate 30 (some "y"))

/-- A 60-row binary target column: 15/15 zeros and ones within each run
of the feature. -/
def tColC2 : Column :=
  Column.numCol (List.replicate 15 (some 0) ++ List.replicate 15 (some 1)
    ++ List.replicate 15 (some 0) ++ List.replicate 15 (some 1))

/-- The target values of `tColC2`. -/
def tvC2 : List ℚ :=
  List.replicate 15 0 ++ List.replicate 15 1 ++ List.replicate 15 0 ++ List.replicate 15 1

/-- Sixty rows, a binary target `t` and a discrete feature `g` with 30
rows per category and 15/15 target counts in each: every expected cell
frequency is 15 and both groups have size 30. -/
def dfC2 : DataFrame := [("g", gColC2), ("t", tColC2)]

/-- The spec scenario dataset: target `outcome` with 10 zeros and 10
ones and a discrete feature `group` split exactly along the target. -/
def dfC8 : DataFrame :=
  [("group", Column.strCol (List.replicate 10 (some "x") ++ List.replicate 10 (some "y"))),
   ("outcome", Column.numCol (List.replicate 10 (some 1) ++ List.replicate 10 (some 0)))]

/-! ### Helper definitions for the theorems and witnesses -/

/-- The number of distinct observed values (`unique()`) of a column of
the frame; 0 for an absent column. -/
def uniqueCount (df : DataFrame) (f : String) : ℕ :=
  match lookupCol df f with
  | some col => col.uniqueVals.length
  | none => 0

/-- The running best of the dictionary fold, restricted to one feature:
strict replacement keeps the first encountered among ties. -/
def run_best (t : SplitResult) (cs : List SplitResult) : SplitResult :=
  cs.foldl (fun b s => if b.effect_size < s.effect_size then s else b) t

/-- Association-list lookup (by first matching key). -/
def lookupA (f : String) (m : List (String × SplitResult)) : Option SplitResult :=
  (m.find? (fun p => p.1 == f)).map (fun p => p.2)

/-- One step of the per-feature running best: first sight installs the
split, afterwards only a strictly larger effect size replaces it. -/
def bestStep (t? : Option SplitResult) (s : SplitResult) : SplitResult :=
  match t? with
  | none => s
  | some t => if t.effect_size < s.effect_size then s else t

/-- The per-feature running best over a list of candidates (`none` when
the feature never occurs). -/
def run_best_opt (t? : Option SplitResult) (cs : List SplitResult) :
    Option SplitResult :=
  match t?, cs with
  | none, [] => none
  | none, c :: cs => some (run_best c cs)
  | some t, cs => some (run_best t cs)

/-- Well-formedness of the dictionary: keys are distinct and each entry
is keyed by its split's feature. -/
def goodMap (m : List (String × SplitResult)) : Prop :=
  (m.map (fun p => p.1)).Nodup ∧ ∀ p ∈ m, p.2.feature = p.1

/-- A placeholder record used only to extract values from `Except`. -/
def junkSplit : SplitResult :=
  { feature := "", feature_type := "", rule := "", group_a_rate := 0,
    group_b_rate := 0, effect_size := 0, p_value := 0, is_significant := false,
    test_method := "", group_a_count := 0, group_b_count := 0, target_type := "" }

/-- The ranked list of `find_best_splits` over `dfA`. -/
def listA : List SplitResult :=
  (find_best_splits trivOracle analyzerA 5).toOption.getD []

/-- The per-feature dictionary over `dfA`. -/
def mapA : List (String × SplitResult) :=
  (get_top_splits_per_feature trivOracle analyzerA).toOption.getD []

/-- The category splits of `g` over `dfA`. -/
def listC7 : List SplitResult :=
  (get_all_category_splits trivOracle analyzerA "g").toOption.getD []

/-- The ranked list of `find_best_splits` over `dfB`. -/
def listB : List SplitResult :=
  (find_best_splits trivOracle analyzerB 3).toOption.getD []

/-- The result of the `g == "x"` split of `dfA`. -/
def resC4 : SplitResult :=
  (calculate_split_statistics trivOracle dfA "t" (1/20) "g"
    (SplitVal.strV (some "x")) "discrete").toOption.getD junkSplit

/-- The result of the `g == "x"` split of `dfC2`. -/
def resC2 : SplitResult :=
  (calculate_split_statistics trivOracle dfC2 "t" (1/20) "g"
    (SplitVal.strV (some "x")) "discrete").toOption.getD junkSplit

/-- The result of the `group == "x"` split of `dfC8`. -/
def resC8 : SplitResult :=
  (calculate_split_statistics trivOracle dfC8 "outcome" (1/20) "group"
    (SplitVal.strV (some "x")) "discrete").toOption.getD junkSplit

/-! ### C1 -/

/-- C1: the spec says a candidate split with an empty group A or B is
silently skipped.  The source skips nothing: on `dfC1` the single
one-vs-rest candidate `f == "x"` has an empty group B, `fisher_exact`
receives a 1x2 contingency table and raises, and the whole
`find_best_splits` call fails instead of returning the remaining
results. -/
theorem c1_code_eval :
    find_best_splits trivOracle analyzerC1 5 =
      Except.error "ValueError: fisher_exact requires a 2x2 contingency table" := by
  with_unfolding_all rfl

/-! ### C3 -/

/-- C3 counterexample: constructing the analyzer over `dfC3` with the
absent target column `t` does not fail — it returns an analyzer whose
classification sets are fully populated (both columns classified
discrete), contradicting the claim that construction fails with an
invalid-argument error before any classification is produced. -/
theorem c3_counterexample :
    (FeatureAnalyzer.make dfC3 "t" (1/20) SortMode.impact).continuous_features = []
    ∧ (FeatureAnalyzer.make dfC3 "t" (1/20) SortMode.impact).discrete_features = ["a", "b"] := by
  constructor <;> rfl

/-- The classification fold only ever appends to the two buckets. -/
theorem classify_foldl_mono (tc : String) (c : String) :
    ∀ (df : DataFrame) (acc : List String × List String),
      c ∈ acc.1 ∨ c ∈ acc.2 →
      c ∈ (df.foldl (classify_step tc) acc).1 ∨ c ∈ (df.foldl (classify_step tc) acc).2 := by
  intro df
  induction df with
  | nil => intro acc h; exact h
  | cons d df ih =>
    intro acc h
    refine ih (classify_step tc acc d) ?_
    unfold classify_step
    rcases h with h | h
    · split
      · exact Or.inl h
      · split
        · split
          · exact Or.inl (List.mem_append_left _ h)
          · exact Or.inl h
        · exact Or.inl h
    · split
      · exact Or.inr h
      · split
        · split
          · exact Or.inr h
          · exact Or.inr (List.mem_append_left _ h)
        · exact Or.inr (List.mem_append_left _ h)

/-- Any non-target column lands in one of the two classification
buckets. -/
theorem classify_foldl_adds (tc : String) (c : String) :
    ∀ (df : DataFrame) (acc : List String × List String),
      c ∈ colNames df → c ≠ tc →
      c ∈ (df.foldl (classify_step tc) acc).1 ∨ c ∈ (df.foldl (classify_step tc) acc).2 := by
  intro df
  induction df with
  | nil => intro acc h; simp [colNames] at h
  | cons d df ih =>
    intro acc hmem hne
    have hmem2 : c = d.1 ∨ c ∈ colNames df := by
      simpa [colNames] using hmem
    rcases hmem2 with heq | htail
    · refine classify_foldl_mono tc c df (classify_step tc acc d) ?_
      unfold classify_step
      rw [if_neg (by rw [← heq]; exact hne)]
      rcases hcol2 : d.2 with _ | _
      · dsimp only
        split
        · exact Or.inl (List.mem_append_right _ (List.mem_singleton.mpr heq))
        · exact Or.inr (List.mem_append_right _ (List.mem_singleton.mpr heq))
      · exact Or.inr (List.mem_append_right _ (List.mem_singleton.mpr heq))
    · exact ih (classify_step tc acc d) htail hne

/-- C3 amended: construction with an absent target column performs no
validation and succeeds; the classification is produced in full (every
column of the frame, none being the target, is classified), and the
missing target only raises later — every call of
`calculate_split_statistics` fails with the `KeyError` for the target
column. -/
theorem c3_amended (df : DataFrame) (tc : String) (sig : ℚ) (sm : SortMode)
    (h : lookupCol df tc = none) :
    (∀ c ∈ colNames df,
      c ∈ (FeatureAnalyzer.make df tc sig sm).continuous_features ∨
      c ∈ (FeatureAnalyzer.make df tc sig sm).discrete_features)
    ∧ (∀ (o : StatsOracle) (f : String) (sv : SplitVal) (ft : String),
        calculate_split_statistics o df tc sig f sv ft =
          Except.error ("KeyError: " ++ tc)) := by
  constructor
  · intro c hc
    have hne : c ≠ tc := by
      intro hEq
      subst hEq
      have hfind : df.find? (fun p => p.1 == c) = none := by
        unfold lookupCol at h
        exact Option.map_eq_none'.mp h
      rcases List.mem_map.mp hc with ⟨p, hp, hpc⟩
      have := List.find?_eq_none.mp hfind p hp
      simp [hpc] at this
    exact classify_foldl_adds tc c df ([], []) hc hne
  · intro o f sv ft
    unfold calculate_split_statistics
    rw [h]

/-- C3 witness for the amended statement, at `dfC3` and target `t`. -/
theorem c3_amended_witness :
    ("a" ∈ (FeatureAnalyzer.make dfC3 "t" (1/20) SortMode.impact).continuous_features ∨
      "a" ∈ (FeatureAnalyzer.make dfC3 "t" (1/20) SortMode.impact).discrete_features)
    ∧ calculate_split_statistics trivOracle dfC3 "t" (1/20) "a"
        (SplitVal.strV (some "u")) "discrete" = Except.error ("KeyError: " ++ "t") := by
  have h := c3_amended dfC3 "t" (1/20) SortMode.impact rfl
  exact ⟨h.1 "a" (by decide), h.2 trivOracle "a" (SplitVal.strV (some "u")) "discrete"⟩

/-! ### Bridge lemmas for branch analysis -/

/-- At a discrete-type split the group A mask is the `==` mask. -/
theorem group_a_mask_discrete (col : Column) (sv : SplitVal) :
    group_a_mask col sv "discrete" = discMask col sv := by
  unfold group_a_mask
  rw [if_neg (by decide)]

/-- At a discrete-type split the group B mask is the `!=` mask. -/
theorem group_b_mask_discrete (col : Column) (sv : SplitVal) :
    group_b_mask col sv "discrete" = (discMask col sv).map (fun b => !b) := by
  unfold group_b_mask
  rw [if_neg (by decide)]

/-- Inverting a successful `_calculate_split_statistics` call: the test
selection succeeded and the record is assembled from its p-value and
label together with the group statistics of the split. -/
theorem calc_ok_elim (o : StatsOracle) (df : DataFrame)
    (target_col feature : String) (sig : ℚ) (sv : SplitVal) (ft : String)
    (r : SplitResult) (tcol fcol : Column) (tv : List ℚ)
    (htc : lookupCol df target_col = some tcol)
    (htv : targetVals tcol = some tv)
    (hcol : lookupCol df feature = some fcol)
    (hok : calculate_split_statistics o df target_col sig feature sv ft
      = Except.ok r) :
    ∃ pr, split_test_result o df tv fcol sv ft = Except.ok pr ∧
      r = mkSplitResult feature ft (split_rule feature sv ft)
            (qmean (selectMask (group_a_mask fcol sv ft) tv))
            (qmean (selectMask (group_b_mask fcol sv ft) tv))
            pr.1 sig pr.2
            ((group_a_mask fcol sv ft).count true)
            ((group_b_mask fcol sv ft).count true)
            (if (firstUniques tv).length = 2 then "binary" else "continuous") := by
  unfold calculate_split_statistics at hok
  simp only [htc, htv, hcol] at hok
  by_cases hguard : ft = "continuous" ∧ contShapeOk fcol sv = false
  · rw [if_pos hguard] at hok
    exact absurd hok (by simp)
  · rw [if_neg hguard] at hok
    cases hsp : split_test_result o df tv fcol sv ft with
    | error e =>
      rw [hsp] at hok
      exact absurd hok (by simp [Except.map])
    | ok pr =>
      rw [hsp] at hok
      refine ⟨pr, rfl, ?_⟩
      simpa [Except.map] using hok.symm

/-! ### C2 -/

/-- C2 counterexample: on `dfC2` the split `g == "x"` satisfies every
condition of the claim — all expected cell frequencies are at least 5,
the total size is at least 30 and both groups have at least 30 rows —
yet the source selects a two-proportion z-test labelled
`"Two-proportion z-test"`, not a Chi-square test labelled
`"Chi-square test"`. -/
theorem c2_counterexample :
    anyExpectedLt5 (discMask gColC2 (SplitVal.strV (some "x"))) tvC2 = false
    ∧ 30 ≤ nrows dfC2
    ∧ 30 ≤ (discMask gColC2 (SplitVal.strV (some "x"))).count true
    ∧ 30 ≤ ((discMask gColC2 (SplitVal.strV (some "x"))).map (fun b => !b)).count true
    ∧ (calculate_split_statistics trivOracle dfC2 "t" (1/20) "g"
        (SplitVal.strV (some "x")) "discrete").map (fun r => r.test_method)
      = Except.ok "Two-proportion z-test"
    ∧ "Two-proportion z-test" ≠ "Chi-square test" := by
  refine ⟨?_, ?_, ?_, ?_, ?_, ?_⟩
  · with_unfolding_all rfl
  · decide
  · decide
  · decide
  · with_unfolding_all rfl
  · decide

/-- C2 amended: for a binary target and a discrete (one-vs-rest) split,
when every expected cell frequency is at least 5, the total size is at
least 30 and both groups have at least 30 rows, the source runs a
two-proportion z-test labelled `"Two-proportion z-test"` (not a
Chi-square test); otherwise it runs Fisher's exact test with the fixed
label `"Fisher's exact test (small sample or expected freq < 5)"`, which
names both possible triggering reasons. -/
theorem c2_amended (o : StatsOracle) (df : DataFrame)
    (target_col feature : String) (sig : ℚ) (sv : SplitVal) (r : SplitResult)
    (tcol col : Column) (tv : List ℚ)
    (htc : lookupCol df target_col = some tcol)
    (htv : targetVals tcol = some tv)
    (hcol : lookupCol df feature = some col)
    (hbin : (firstUniques tv).length = 2)
    (hok : calculate_split_statistics o df target_col sig feature sv "discrete"
      = Except.ok r) :
    r.test_method =
      if anyExpectedLt5 (discMask col sv) tv = true ∨ nrows df < 30 ∨
          (discMask col sv).count true < 30 ∨
          ((discMask col sv).map (fun b => !b)).count true < 30
      then "Fisher\x27s exact test (small sample or expected freq < 5)"
      else "Two-proportion z-test" := by
  obtain ⟨pr, hsp, hr⟩ := calc_ok_elim o df target_col feature sig sv "discrete"
    r tcol col tv htc htv hcol hok
  have hrm : r.test_method = pr.2 := by rw [hr]; simp [mkSplitResult]
  rw [hrm]
  simp only [split_test_result, group_a_mask_discrete, group_b_mask_discrete] at hsp
  rw [if_pos hbin] at hsp
  rw [if_neg (by decide : ¬("discrete" : String) = "continuous")] at hsp
  unfold discrete_binary_test at hsp
  split at hsp
  next h =>
    rw [if_pos h]
    unfold fisher_test at hsp
    split at hsp
    next =>
      injection hsp with h2
      rw [← h2]
    next =>
      exact absurd hsp (by simp)
  next h =>
    rw [if_neg h]
    injection hsp with h2
    rw [← h2]

/-- C2 witness: the amended claim applied to `dfC2`, where the z-branch
conditions hold and the selected label is the z-test label. -/
theorem c2_amended_witness : resC2.test_method = "Two-proportion z-test" := by
  have h := c2_amended trivOracle dfC2 "t" "g" (1/20) (SplitVal.strV (some "x"))
    resC2 tColC2 gColC2 tvC2 (by with_unfolding_all rfl)
    (by with_unfolding_all rfl) (by with_unfolding_all rfl)
    (by with_unfolding_all rfl) (by with_unfolding_all rfl)
  rw [h]
  with_unfolding_all rfl

/-! ### C4 -/

/-- C4: for a continuous target, each candidate split independently
selects its test by the ladder — small sample (total or either group
below 30) gives Mann-Whitney `(small sample)`; otherwise insufficient
variability (coefficient of variation std/mean, taken as 0 at mean 0,
below 0.01 in either group) gives Mann-Whitney `(low variability)`;
otherwise absolute skewness above 2 in either group gives Mann-Whitney
`(skewed data)`; otherwise Welch.  Both feature types run the same
ladder. -/
theorem c4_ladder (o : StatsOracle) (df : DataFrame)
    (target_col feature : String) (sig : ℚ) (sv : SplitVal) (ft : String)
    (r : SplitResult) (tcol col : Column) (tv : List ℚ)
    (htc : lookupCol df target_col = some tcol)
    (htv : targetVals tcol = some tv)
    (hcol : lookupCol df feature = some col)
    (hnb : ¬ (firstUniques tv).length = 2)
    (hok : calculate_split_statistics o df target_col sig feature sv ft
      = Except.ok r) :
    r.test_method =
      if nrows df < 30 ∨ (group_a_mask col sv ft).count true < 30 ∨
          (group_b_mask col sv ft).count true < 30 then
        "Mann-Whitney U test (small sample)"
      else if !(check_variability (selectMask (group_a_mask col sv ft) tv)
          && check_variability (selectMask (group_b_mask col sv ft) tv)) then
        "Mann-Whitney U test (low variability)"
      else if skewAbsGt2 (selectMask (group_a_mask col sv ft) tv)
          || skewAbsGt2 (selectMask (group_b_mask col sv ft) tv) then
        "Mann-Whitney U test (skewed data)"
      else
        "Welch\x27s t-test" := by
  obtain ⟨pr, hsp, hr⟩ := calc_ok_elim o df target_col feature sig sv ft
    r tcol col tv htc htv hcol hok
  have hrm : r.test_method = pr.2 := by rw [hr]; simp [mkSplitResult]
  rw [hrm]
  simp only [split_test_result] at hsp
  rw [if_neg hnb] at hsp
  unfold continuous_target_test at hsp
  split at hsp
  next h =>
    rw [if_pos h]
    unfold mannwhitney_test at hsp
    split at hsp
    next => exact absurd hsp (by simp)
    next => injection hsp with h2; rw [← h2]
  next h =>
    rw [if_neg h]
    split at hsp
    next h3 =>
      rw [if_pos h3]
      unfold mannwhitney_test at hsp
      split at hsp
      next => exact absurd hsp (by simp)
      next => injection hsp with h2; rw [← h2]
    next h3 =>
      rw [if_neg h3]
      split at hsp
      next h4 =>
        rw [if_pos h4]
        unfold mannwhitney_test at hsp
        split at hsp
        next => exact absurd hsp (by simp)
        next => injection hsp with h2; rw [← h2]
      next h4 =>
        rw [if_neg h4]
        injection hsp with h2
        rw [← h2]

/-- C4 witness: on `dfA` (3 rows, continuous target) the discrete split
`g == "x"` takes the small-sample rung of the ladder. -/
theorem c4_ladder_witness :
    resC4.test_method = "Mann-Whitney U test (small sample)" := by
  have h := c4_ladder trivOracle dfA "t" "g" (1/20) (SplitVal.strV (some "x"))
    "discrete" resC4 (Column.numCol [some 1, some 2, some 3])
    (Column.strCol [some "x", some "x", some "y"]) [1, 2, 3]
    (by with_unfolding_all rfl) (by with_unfolding_all rfl)
    (by with_unfolding_all rfl) (by decide) (by with_unfolding_all rfl)
  rw [h]
  with_unfolding_all rfl

/-! ### C8 -/

/-- C8: for a binary target (exactly 2 distinct target values), the
rates of a returned split are the group means of the target scaled by
100 and the effect size is the absolute rate difference scaled by
100. -/
theorem c8_binary_scaling (o : StatsOracle) (df : DataFrame)
    (target_col feature : String) (sig : ℚ) (sv : SplitVal) (ft : String)
    (r : SplitResult) (tcol col : Column) (tv : List ℚ)
    (htc : lookupCol df target_col = some tcol)
    (htv : targetVals tcol = some tv)
    (hcol : lookupCol df feature = some col)
    (hbin : (firstUniques tv).length = 2)
    (hok : calculate_split_statistics o df target_col sig feature sv ft
      = Except.ok r) :
    r.group_a_rate = qmean (selectMask (group_a_mask col sv ft) tv) * 100
    ∧ r.group_b_rate = qmean (selectMask (group_b_mask col sv ft) tv) * 100
    ∧ r.effect_size = |qmean (selectMask (group_a_mask col sv ft) tv)
        - qmean (selectMask (group_b_mask col sv ft) tv)| * 100
    ∧ r.target_type = "binary" := by
  obtain ⟨pr, hsp, hr⟩ := calc_ok_elim o df target_col feature sig sv ft
    r tcol col tv htc htv hcol hok
  rw [hr]
  simp [mkSplitResult, hbin]

/-- C8 witness: the spec scenario.  On `dfC8` (target `outcome` with 10
ones and 10 zeros, feature `group` split exactly along the target) the
split `group == "x"` yields rates 100 and 0 and effect size exactly
100. -/
theorem c8_binary_scaling_witness :
    resC8.group_a_rate = 100 ∧ resC8.group_b_rate = 0
    ∧ resC8.effect_size = 100 := by
  have h := c8_binary_scaling trivOracle dfC8 "outcome" "group" (1/20)
    (SplitVal.strV (some "x")) "discrete" resC8
    (Column.numCol (List.replicate 10 (some 1) ++ List.replicate 10 (some 0)))
    (Column.strCol (List.replicate 10 (some "x") ++ List.replicate 10 (some "y")))
    (List.replicate 10 1 ++ List.replicate 10 0)
    (by with_unfolding_all rfl) (by with_unfolding_all rfl)
    (by with_unfolding_all rfl) (by with_unfolding_all rfl)
    (by with_unfolding_all rfl)
  refine ⟨?_, ?_, ?_⟩
  · rw [h.1]; with_unfolding_all rfl
  · rw [h.2.1]; with_unfolding_all rfl
  · rw [h.2.2.1]; with_unfolding_all rfl

/-! ### C9 -/

/-- A row cannot land in both groups of a continuous split. -/
theorem optGt_optLe_not_both (v t : Option ℚ) :
    ¬(optGt v t = true ∧ optLe v t = true) := by
  rintro ⟨h1, h2⟩
  cases v with
  | none => simp [optGt] at h1
  | some a =>
    cases t with
    | none => simp [optGt] at h1
    | some b =>
      simp only [optGt, optLe, decide_eq_true_eq] at h1 h2
      exact absurd h2 (not_le.mpr h1)

/-- A fully observed row at a real threshold lands in exactly one
group. -/
theorem optGt_or_optLe (a b : ℚ) :
    optGt (some a) (some b) = true ∨ optLe (some a) (some b) = true := by
  simp only [optGt, optLe, decide_eq_true_eq]
  rcases le_or_lt a b with h | h
  · exact Or.inr h
  · exact Or.inl h

/-- The two groups of a continuous split cover at most every row. -/
theorem cont_counts_le (vs : List (Option ℚ)) (t : Option ℚ) :
    (vs.map (fun v => optGt v t)).count true
      + (vs.map (fun v => optLe v t)).count true ≤ vs.length := by
  induction vs with
  | nil => simp
  | cons v vs ih =>
    have h := optGt_optLe_not_both v t
    simp only [List.map_cons, List.count_cons, List.length_cons]
    cases h1 : optGt v t with
    | true =>
      cases h2 : optLe v t with
      | true => exact absurd ⟨h1, h2⟩ h
      | false => simp only [h1, h2] at *; simp; omega
    | false =>
      cases h2 : optLe v t with
      | true => simp only [h1, h2] at *; simp; omega
      | false => simp only [h1, h2] at *; simp; omega

/-- With no missing value and a real threshold the two groups of a
continuous split partition the rows. -/
theorem cont_counts_eq (t : ℚ) :
    ∀ vs : List (Option ℚ), vs.all (fun v => v.isSome) = true →
    (vs.map (fun v => optGt v (some t))).count true
      + (vs.map (fun v => optLe v (some t))).count true = vs.length := by
  intro vs
  induction vs with
  | nil => intro _; simp
  | cons v vs ih =>
    intro hall
    simp only [List.all_cons, Bool.and_eq_true] at hall
    obtain ⟨hv, hrest⟩ := hall
    obtain ⟨a, rfl⟩ := Option.isSome_iff_exists.mp hv
    have hnb := optGt_optLe_not_both (some a) (some t)
    have hih := ih hrest
    simp only [List.map_cons, List.count_cons, List.length_cons]
    cases h1 : optGt (some a) (some t) with
    | true =>
      cases h2 : optLe (some a) (some t) with
      | true => exact absurd ⟨h1, h2⟩ hnb
      | false => simp; omega
    | false =>
      cases h2 : optLe (some a) (some t) with
      | true => simp; omega
      | false =>
        rcases optGt_or_optLe a t with hc | hc
        · exact absurd hc (by simp [h1])
        · exact absurd hc (by simp [h2])

/-- The `==` and `!=` groups of a one-vs-rest split partition all
rows. -/
theorem disc_counts (m : List Bool) :
    m.count true + (m.map (fun b => !b)).count true = m.length := by
  induction m with
  | nil => simp
  | cons b m ih =>
    cases b with
    | true =>
      simp only [List.map_cons, List.count_cons, List.length_cons]
      simp
      omega
    | false =>
      simp only [List.map_cons, List.count_cons, List.length_cons]
      simp
      omega

/-- A discrete mask has one entry per row. -/
theorem discMask_length (col : Column) (sv : SplitVal) :
    (discMask col sv).length = col.length := by
  cases col <;> cases sv <;> simp [discMask, Column.length]

/-- C9: for every candidate split of a column of the frame —
continuous (`>` / `<=`) or discrete (`==` / `!=`) — the two group
counts sum to at most the row count; the sum equals the row count for
every discrete split, and for a continuous split whenever the feature
has no missing value and the threshold is not NaN (missing values are
excluded by both comparisons). -/
theorem c9_invariant (df : DataFrame) (f : String) (col : Column)
    (hcol : lookupCol df f = some col) (hlen : col.length = nrows df) :
    (∀ (sv : SplitVal) (ft : String),
      (group_a_mask col sv ft).count true
        + (group_b_mask col sv ft).count true ≤ nrows df)
    ∧ (∀ sv : SplitVal,
      (group_a_mask col sv "discrete").count true
        + (group_b_mask col sv "discrete").count true = nrows df)
    ∧ (∀ (vs : List (Option ℚ)) (t : ℚ), col = Column.numCol vs →
      vs.all (fun v => v.isSome) = true →
      (group_a_mask col (SplitVal.numV (some t)) "continuous").count true
        + (group_b_mask col (SplitVal.numV (some t)) "continuous").count true
        = nrows df) := by
  refine ⟨?_, ?_, ?_⟩
  · intro sv ft
    by_cases hft : ft = "continuous"
    · simp only [group_a_mask, group_b_mask, if_pos hft]
      cases col with
      | numCol vs =>
        cases sv with
        | numV t =>
          rw [← hlen]
          exact cont_counts_le vs t
        | strV s => simp
      | strCol vs => cases sv <;> simp
    · simp only [group_a_mask, group_b_mask, if_neg hft]
      have h := disc_counts (discMask col sv)
      have hl := discMask_length col sv
      omega
  · intro sv
    rw [group_a_mask_discrete, group_b_mask_discrete]
    have h := disc_counts (discMask col sv)
    have hl := discMask_length col sv
    omega
  · intro vs t hc hall
    subst hc
    simp only [group_a_mask, group_b_mask, if_pos rfl]
    rw [← hlen]
    exact cont_counts_eq t vs hall

/-- C9 witness: on the fully observed 11-value column `c` of `dfB` both
the discrete partition and the continuous partition at threshold 5 sum
exactly to the row count. -/
theorem c9_invariant_witness :
    (group_a_mask cColB (SplitVal.numV (some 5)) "continuous").count true
      + (group_b_mask cColB (SplitVal.numV (some 5)) "continuous").count true
      = nrows dfB
    ∧ (group_a_mask cColB (SplitVal.numV (some 5)) "discrete").count true
      + (group_b_mask cColB (SplitVal.numV (some 5)) "discrete").count true
      = nrows dfB := by
  have h := c9_invariant dfB "c" cColB (by with_unfolding_all rfl)
    (by with_unfolding_all rfl)
  exact ⟨h.2.2 ((List.range 11).map (fun i => some ((i : ℚ) + 1))) 5
    (by with_unfolding_all rfl) (by with_unfolding_all rfl),
    h.2.1 (SplitVal.numV (some 5))⟩

/-! ### C5 -/

/-- Sorting a list whose elements all satisfy `p` changes no `p`. -/
theorem filter_insertionSort_all (r : SplitResult → SplitResult → Prop)
    [DecidableRel r] (p : SplitResult → Bool) (xs : List SplitResult)
    (h : ∀ a ∈ xs, p a) :
    (List.insertionSort r xs).filter p = List.insertionSort r xs := by
  refine List.filter_eq_self.mpr ?_
  intro a ha
  exact h a ((List.mem_insertionSort r).mp ha)

/-- Sorting a list none of whose elements satisfies `p` filters to
nothing. -/
theorem filter_insertionSort_none (r : SplitResult → SplitResult → Prop)
    [DecidableRel r] (p : SplitResult → Bool) (xs : List SplitResult)
    (h : ∀ a ∈ xs, ¬ p a = true) :
    (List.insertionSort r xs).filter p = [] := by
  rw [List.filter_eq_nil_iff]
  intro a ha
  exact h a ((List.mem_insertionSort r).mp ha)

/-- The significant part of the ranked list is exactly the sorted
significant sublist, and likewise for the non-significant part. -/
theorem rank_splits_filter (sm : SortMode) (all : List SplitResult) :
    (rank_splits sm all).filter (fun s => s.is_significant) =
      (match sm with
        | SortMode.impact =>
          List.insertionSort effectDesc (all.filter (fun s => s.is_significant))
        | SortMode.p_value =>
          List.insertionSort pAsc (all.filter (fun s => s.is_significant)))
    ∧ (rank_splits sm all).filter (fun s => !s.is_significant) =
        List.insertionSort effectDesc (all.filter (fun s => !s.is_significant)) := by
  have hsig : ∀ a ∈ all.filter (fun s => s.is_significant), (fun s => s.is_significant) a =
      true := by
    intro a ha; exact (List.mem_filter.mp ha).2
  have hnon : ∀ a ∈ all.filter (fun s => !s.is_significant),
      (fun s => !s.is_significant) a = true := by
    intro a ha; exact (List.mem_filter.mp ha).2
  have hsig2 : ∀ a ∈ all.filter (fun s => s.is_significant),
      ¬ (fun s => !s.is_significant) a = true := by
    intro a ha
    have h2 := (List.mem_filter.mp ha).2
    simp only at h2
    simp [h2]
  have hnon2 : ∀ a ∈ all.filter (fun s => !s.is_significant),
      ¬ (fun s => s.is_significant) a = true := by
    intro a ha
    have h2 := (List.mem_filter.mp ha).2
    simp only [Bool.not_eq_true'] at h2
    simp [h2]
  unfold rank_splits
  cases sm with
  | impact =>
    constructor
    · rw [List.filter_append,
        filter_insertionSort_all effectDesc _ _ hsig,
        filter_insertionSort_none effectDesc _ _ hnon2, List.append_nil]
    · rw [List.filter_append,
        filter_insertionSort_none effectDesc _ _ hsig2,
        filter_insertionSort_all effectDesc _ _ hnon, List.nil_append]
  | p_value =>
    constructor
    · rw [List.filter_append,
        filter_insertionSort_all pAsc _ _ hsig,
        filter_insertionSort_none effectDesc _ _ hnon2, List.append_nil]
    · rw [List.filter_append,
        filter_insertionSort_none pAsc _ _ hsig2,
        filter_insertionSort_all effectDesc _ _ hnon, List.nil_append]

/-- C5: in the list returned by `find_best_splits` the significant
results form a prefix and the non-significant ones a suffix (the list
equals its significant filter followed by its non-significant filter);
the significant prefix is sorted by effect size descending under IMPACT
and by p-value ascending under P_VALUE; the non-significant suffix is
always sorted by effect size descending. -/
theorem c5_order (o : StatsOracle) (a : FeatureAnalyzer) (n : ℕ)
    (l : List SplitResult)
    (hok : find_best_splits o a n = Except.ok l) :
    l = l.filter (fun s => s.is_significant)
        ++ l.filter (fun s => !s.is_significant)
    ∧ (a.sort_mode = SortMode.impact →
        List.Sorted effectDesc (l.filter (fun s => s.is_significant)))
    ∧ (a.sort_mode = SortMode.p_value →
        List.Sorted pAsc (l.filter (fun s => s.is_significant)))
    ∧ List.Sorted effectDesc (l.filter (fun s => !s.is_significant)) := by
  unfold find_best_splits at hok
  cases hall : all_candidate_splits o a with
  | error e => rw [hall] at hok; exact absurd hok (by simp [Except.map])
  | ok allS =>
    rw [hall] at hok
    have hl : l = rank_splits a.sort_mode allS := by
      simpa [Except.map] using hok.symm
    have hf := rank_splits_filter a.sort_mode allS
    subst hl
    cases hsm : a.sort_mode with
    | impact =>
      rw [hsm] at hf
      refine ⟨?_, ?_, ?_, ?_⟩
      · rw [hf.1, hf.2]
        rfl
      · intro _
        rw [hf.1]
        exact List.sorted_insertionSort effectDesc _
      · intro h
        exact absurd h (by decide)
      · rw [hf.2]
        exact List.sorted_insertionSort effectDesc _
    | p_value =>
      rw [hsm] at hf
      refine ⟨?_, ?_, ?_, ?_⟩
      · rw [hf.1, hf.2]
        rfl
      · intro h
        exact absurd h (by decide)
      · intro _
        rw [hf.1]
        exact List.sorted_insertionSort pAsc _
      · rw [hf.2]
        exact List.sorted_insertionSort effectDesc _

/-- C5 witness: the order structure evaluated on `dfA`. -/
theorem c5_order_witness :
    listA = listA.filter (fun s => s.is_significant)
        ++ listA.filter (fun s => !s.is_significant)
    ∧ List.Sorted effectDesc (listA.filter (fun s => !s.is_significant)) := by
  have hok : find_best_splits trivOracle analyzerA 5 = Except.ok listA := by
    with_unfolding_all rfl
  have h := c5_order trivOracle analyzerA 5 listA hok
  exact ⟨h.1, h.2.2.2⟩

/-! ### C10 -/

/-- A successful effectful map yields one output per input. -/
theorem mapME_ok_length {α β : Type} (f : α → Except String β) :
    ∀ (l : List α) (r : List β), mapME f l = Except.ok r → r.length = l.length := by
  intro l
  induction l with
  | nil =>
    intro r h
    unfold mapME at h
    injection h with h
    rw [← h]
    rfl
  | cons a l ih =>
    intro r h
    unfold mapME at h
    cases hfa : f a with
    | error e => rw [hfa] at h; exact absurd h (by simp)
    | ok b =>
      rw [hfa] at h
      cases hml : mapME f l with
      | error e => rw [hml] at h; exact absurd h (by simp)
      | ok rr =>
        rw [hml] at h
        injection h with h
        rw [← h]
        simp [ih rr hml]

/-- Flattened length of a successful per-feature map, given each
feature's own length. -/
theorem mapME_flatten_length (g : String → Except String (List SplitResult))
    (flen : String → ℕ)
    (hg : ∀ f cs, g f = Except.ok cs → cs.length = flen f) :
    ∀ (fs : List String) (rs : List (List SplitResult)),
      mapME g fs = Except.ok rs → rs.flatten.length = (fs.map flen).sum := by
  intro fs
  induction fs with
  | nil =>
    intro rs h
    unfold mapME at h
    injection h with h
    rw [← h]
    rfl
  | cons f fs ih =>
    intro rs h
    unfold mapME at h
    cases hgf : g f with
    | error e => rw [hgf] at h; exact absurd h (by simp)
    | ok cs =>
      rw [hgf] at h
      cases hml : mapME g fs with
      | error e => rw [hml] at h; exact absurd h (by simp)
      | ok rr =>
        rw [hml] at h
        injection h with h
        rw [← h]
        simp [hg f cs hgf, ih rr hml]

/-- There are always exactly nine candidate thresholds. -/
theorem percentile_thresholds_length (vs : List (Option ℚ)) :
    (percentile_thresholds vs).length = 9 := by
  unfold percentile_thresholds
  split
  · with_unfolding_all rfl
  · rfl

/-- A successful continuous-feature loop returns nine results. -/
theorem continuous_feature_splits_length (o : StatsOracle) (a : FeatureAnalyzer)
    (f : String) (cs : List SplitResult)
    (h : continuous_feature_splits o a f = Except.ok cs) : cs.length = 9 := by
  unfold continuous_feature_splits at h
  cases hl : lookupCol a.df f with
  | none => rw [hl] at h; exact absurd h (by simp)
  | some col =>
    rw [hl] at h
    cases col with
    | strCol vs => exact absurd h (by simp)
    | numCol vs =>
      have h2 := mapME_ok_length _ _ _ h
      rw [h2, percentile_thresholds_length]

/-- A successful discrete-feature loop returns one result per distinct
observed value. -/
theorem analyze_discrete_feature_length (o : StatsOracle) (a : FeatureAnalyzer)
    (f : String) (cs : List SplitResult)
    (h : analyze_discrete_feature o a f = Except.ok cs) :
    cs.length = uniqueCount a.df f := by
  unfold analyze_discrete_feature at h
  cases hl : lookupCol a.df f with
  | none => rw [hl] at h; exact absurd h (by simp)
  | some col =>
    rw [hl] at h
    have h2 := mapME_ok_length _ _ _ h
    unfold uniqueCount
    rw [hl]
    exact h2

/-- The two significance filters partition the candidate list. -/
theorem length_filter_partition (all : List SplitResult) :
    (all.filter (fun s => s.is_significant)).length
      + (all.filter (fun s => !s.is_significant)).length = all.length := by
  induction all with
  | nil => rfl
  | cons s l ih =>
    cases hs : s.is_significant with
    | true => simp [List.filter_cons, hs]; omega
    | false => simp [List.filter_cons, hs]; omega

/-- Ranking preserves the number of candidates. -/
theorem rank_splits_length (sm : SortMode) (all : List SplitResult) :
    (rank_splits sm all).length = all.length := by
  have h := length_filter_partition all
  unfold rank_splits
  cases sm <;>
    simp only [List.length_append, List.length_insertionSort] <;>
    omega

/-- Summing a constant 9 over the features. -/
theorem sum_map_const_nine (fs : List String) :
    (fs.map (fun _ => (9 : ℕ))).sum = 9 * fs.length := by
  induction fs with
  | nil => rfl
  | cons f fs ih =>
    simp only [List.map_cons, List.sum_cons, List.length_cons, ih]
    ring

/-- C10: `find_best_splits` never reads `n_splits` — the result is the
same for any two values — and a successful call returns exactly one
entry per generated candidate: nine percentile candidates per
continuous feature plus one per distinct observed value of each
discrete feature. -/
theorem c10_nsplits (o : StatsOracle) (a : FeatureAnalyzer) (n m : ℕ)
    (l : List SplitResult)
    (hok : find_best_splits o a n = Except.ok l) :
    find_best_splits o a n = find_best_splits o a m
    ∧ l.length = 9 * a.continuous_features.length
        + (a.discrete_features.map (fun f => uniqueCount a.df f)).sum := by
  refine ⟨rfl, ?_⟩
  unfold find_best_splits at hok
  cases hall : all_candidate_splits o a with
  | error e => rw [hall] at hok; exact absurd hok (by simp [Except.map])
  | ok allS =>
    rw [hall] at hok
    have hl : l = rank_splits a.sort_mode allS := by
      simpa [Except.map] using hok.symm
    unfold all_candidate_splits at hall
    cases hc : mapME (continuous_feature_splits o a) a.continuous_features with
    | error e => rw [hc] at hall; exact absurd hall (by simp)
    | ok conts =>
      rw [hc] at hall
      cases hd : mapME (analyze_discrete_feature o a) a.discrete_features with
      | error e => rw [hd] at hall; exact absurd hall (by simp)
      | ok discs =>
        rw [hd] at hall
        injection hall with hall
        have h1 := mapME_flatten_length (continuous_feature_splits o a)
          (fun _ => 9) (fun f cs h => continuous_feature_splits_length o a f cs h)
          a.continuous_features conts hc
        have h2 := mapME_flatten_length (analyze_discrete_feature o a)
          (fun f => uniqueCount a.df f)
          (fun f cs h => analyze_discrete_feature_length o a f cs h)
          a.discrete_features discs hd
        rw [hl, rank_splits_length, ← hall, List.length_append, h1, h2,
          sum_map_const_nine]

/-- C10 witness: on `dfB` the results at `n_splits = 3` and
`n_splits = 7` agree and the successful call returns
9 * 1 + 2 = 11 entries. -/
theorem c10_nsplits_witness :
    find_best_splits trivOracle analyzerB 3 = find_best_splits trivOracle analyzerB 7
    ∧ listB.length = 9 * analyzerB.continuous_features.length
        + (analyzerB.discrete_features.map (fun f => uniqueCount analyzerB.df f)).sum := by
  have hok : find_best_splits trivOracle analyzerB 3 = Except.ok listB := by
    with_unfolding_all rfl
  exact c10_nsplits trivOracle analyzerB 3 7 listB hok

/-! ### C7 -/

/-- C7: `get_all_category_splits` rejects a feature not classified
discrete with an invalid-argument error and returns nothing else; on a
discrete feature a successful call returns one one-vs-rest result per
distinct observed value of the feature's column (a permutation of the
per-value results, in particular of their number), sorted by effect
size descending, with no significance partitioning involved. -/
theorem c7_category (o : StatsOracle) (a : FeatureAnalyzer) (feature : String) :
    (feature ∉ a.discrete_features →
      get_all_category_splits o a feature =
        Except.error ("ValueError: Feature " ++ feature
          ++ " is not a category variable"))
    ∧ (∀ (col : Column) (l : List SplitResult),
        lookupCol a.df feature = some col →
        get_all_category_splits o a feature = Except.ok l →
        l.length = col.uniqueVals.length
        ∧ List.Sorted effectDesc l
        ∧ ∃ raw, analyze_discrete_feature o a feature = Except.ok raw
            ∧ List.Perm l raw) := by
  constructor
  · intro hnot
    unfold get_all_category_splits
    rw [if_neg hnot]
  · intro col l hcol hok
    unfold get_all_category_splits at hok
    by_cases hmem : feature ∈ a.discrete_features
    · rw [if_pos hmem] at hok
      cases hraw : analyze_discrete_feature o a feature with
      | error e => rw [hraw] at hok; exact absurd hok (by simp [Except.map])
      | ok raw =>
        rw [hraw] at hok
        have hl : l = List.insertionSort effectDesc raw := by
          simpa [Except.map] using hok.symm
        have hlen := analyze_discrete_feature_length o a feature raw hraw
        refine ⟨?_, ?_, raw, rfl, ?_⟩
        · rw [hl, List.length_insertionSort, hlen]
          unfold uniqueCount
          rw [hcol]
        · rw [hl]
          exact List.sorted_insertionSort effectDesc raw
        · rw [hl]
          exact List.perm_insertionSort effectDesc raw
    · rw [if_neg hmem] at hok
      exact absurd hok (by simp)

/-- C7 witness: on `dfA`, querying the non-discrete name `t` fails with
the invalid-argument error, and the successful query on `g` returns its
two category splits sorted by effect size. -/
theorem c7_category_witness :
    get_all_category_splits trivOracle analyzerA "t" =
      Except.error ("ValueError: Feature " ++ "t" ++ " is not a category variable")
    ∧ listC7.length = (Column.strCol [some "x", some "x", some "y"]).uniqueVals.length
    ∧ List.Sorted effectDesc listC7 := by
  have h1 := (c7_category trivOracle analyzerA "t").1 (by decide)
  have hok : get_all_category_splits trivOracle analyzerA "g" = Except.ok listC7 := by
    with_unfolding_all rfl
  have h2 := (c7_category trivOracle analyzerA "g").2
    (Column.strCol [some "x", some "x", some "y"]) listC7 (by rfl) hok
  exact ⟨h1, h2.1, h2.2.1⟩

/-! ### C6 -/

/-- Unfolding one candidate of the running best. -/
theorem run_best_cons (t c : SplitResult) (cs : List SplitResult) :
    run_best t (c :: cs) =
      run_best (if t.effect_size < c.effect_size then c else t) cs := rfl

/-- The running best is one of the candidates. -/
theorem run_best_mem : ∀ (cs : List SplitResult) (t : SplitResult),
    run_best t cs ∈ t :: cs := by
  intro cs
  induction cs with
  | nil => intro t; simp [run_best]
  | cons c cs ih =>
    intro t
    rw [run_best_cons]
    rcases List.mem_cons.mp (ih (if t.effect_size < c.effect_size then c else t))
      with h1 | h1
    · rw [h1]
      split
      · exact List.mem_cons_of_mem _ (List.mem_cons_self _ _)
      · exact List.mem_cons_self _ _
    · exact List.mem_cons_of_mem _ (List.mem_cons_of_mem _ h1)

/-- The running best has the largest effect size among the
candidates. -/
theorem run_best_max : ∀ (cs : List SplitResult) (t : SplitResult),
    ∀ x ∈ t :: cs, x.effect_size ≤ (run_best t cs).effect_size := by
  intro cs
  induction cs with
  | nil =>
    intro t x hx
    rcases List.mem_cons.mp hx with h | h
    · rw [h]; exact le_refl _
    · simp at h
  | cons c cs ih =>
    intro t x hx
    rw [run_best_cons]
    have hle_t : t.effect_size ≤
        (if t.effect_size < c.effect_size then c else t).effect_size := by
      split
      · next h => exact le_of_lt h
      · exact le_refl _
    have hle_c : c.effect_size ≤
        (if t.effect_size < c.effect_size then c else t).effect_size := by
      split
      · exact le_refl _
      · next h => exact le_of_not_lt h
    rcases List.mem_cons.mp hx with h | h
    · calc x.effect_size = t.effect_size := by rw [h]
        _ ≤ _ := hle_t
        _ ≤ _ := ih _ _ (List.mem_cons_self _ _)
    · rcases List.mem_cons.mp h with h2 | h2
      · calc x.effect_size = c.effect_size := by rw [h2]
          _ ≤ _ := hle_c
          _ ≤ _ := ih _ _ (List.mem_cons_self _ _)
      · exact ih _ x (List.mem_cons_of_mem _ h2)

/-- Evaluating `find?` on a cons whose head matches (explicit-predicate variant,
to steer rewriting). -/
theorem find?_cons_pos {α : Type} (p : α → Bool) (a : α)
    (l : List α) (h : p a = true) : (a :: l).find? p = some a :=
  List.find?_cons_of_pos l h

/-- Evaluating `find?` on a cons whose head does not match. -/
theorem find?_cons_neg {α : Type} (p : α → Bool) (a : α)
    (l : List α) (h : ¬ p a = true) : (a :: l).find? p = l.find? p :=
  List.find?_cons_of_neg l h

/-- Among the candidates, the first one attaining the maximal effect
size is the running best (strict replacement keeps the earliest
maximum). -/
theorem run_best_first : ∀ (cs : List SplitResult) (t : SplitResult),
    (t :: cs).find? (fun x => x.effect_size == (run_best t cs).effect_size)
      = some (run_best t cs) := by
  intro cs
  induction cs with
  | nil =>
    intro t
    have h0 : run_best t [] = t := rfl
    rw [h0]
    exact find?_cons_pos _ t [] (by simp)
  | cons c cs ih =>
    intro t
    rw [run_best_cons]
    set t2 := if t.effect_size < c.effect_size then c else t with ht2
    have hmain := ih t2
    have hmax := run_best_max cs t2
    by_cases hteq : t.effect_size = (run_best t2 cs).effect_size
    · -- the head already attains the maximum, so the running best is t
      have hc : ¬ t.effect_size < c.effect_size := by
        intro hlt
        have ht2c : t2 = c := by rw [ht2, if_pos hlt]
        have h2 := hmax t2 (List.mem_cons_self _ _)
        rw [← hteq] at h2
        rw [ht2c] at h2
        exact absurd (lt_of_lt_of_le hlt h2) (lt_irrefl _)
      have ht2t : t2 = t := by rw [ht2, if_neg hc]
      rw [ht2t] at hteq hmain ⊢
      have hpt : (fun x => x.effect_size == (run_best t cs).effect_size) t = true := by
        simp [hteq]
      rw [find?_cons_pos _ t cs hpt] at hmain
      injection hmain with hmain
      rw [find?_cons_pos _ t (c :: cs) hpt]
      exact congrArg some hmain
    · -- the head does not attain the maximum
      have hpt : ¬ (fun x => x.effect_size == (run_best t2 cs).effect_size) t = true := by
        simpa using hteq
      rw [find?_cons_neg _ t (c :: cs) hpt]
      by_cases hlt : t.effect_size < c.effect_size
      · have ht2c : t2 = c := by rw [ht2, if_pos hlt]
        rw [ht2c] at hmain ⊢
        exact hmain
      · have ht2t : t2 = t := by rw [ht2, if_neg hlt]
        rw [ht2t] at hteq hmain hmax hpt ⊢
        rw [find?_cons_neg _ t cs hpt] at hmain
        have hpc : ¬ (fun x => x.effect_size == (run_best t cs).effect_size) c = true := by
          simp only [beq_iff_eq]
          intro hceq
          have h1 : t.effect_size ≤ (run_best t cs).effect_size :=
            hmax t (List.mem_cons_self _ _)
          have h2 : c.effect_size ≤ t.effect_size := le_of_not_lt hlt
          rw [hceq] at h2
          exact hteq (le_antisymm h1 h2)
        rw [find?_cons_neg _ c cs hpc]
        exact hmain

/-- Association-list lookup on a cons. -/
theorem lookupA_cons (f : String) (q : String × SplitResult)
    (m : List (String × SplitResult)) :
    lookupA f (q :: m) = if q.1 = f then some q.2 else lookupA f m := by
  unfold lookupA
  by_cases h : q.1 = f
  · rw [find?_cons_pos _ _ _ (by simp [h]), if_pos h]
    rfl
  · rw [find?_cons_neg _ _ _ (by simp [h]), if_neg h]

/-- Association-list lookup over an append. -/
theorem lookupA_append (f : String) (m1 m2 : List (String × SplitResult)) :
    lookupA f (m1 ++ m2) =
      if (lookupA f m1).isSome then lookupA f m1 else lookupA f m2 := by
  induction m1 with
  | nil => simp [lookupA]
  | cons q m1 ih =>
    rw [List.cons_append, lookupA_cons, lookupA_cons]
    by_cases h : q.1 = f
    · simp [h]
    · simp [h, ih]

/-- Lookup after the strict-replacement pass of `update_best`. -/
theorem lookupA_map_replace (s : SplitResult) (f : String) :
    ∀ acc : List (String × SplitResult),
      lookupA f (acc.map (fun p =>
        if p.1 = s.feature ∧ p.2.effect_size < s.effect_size then (p.1, s) else p)) =
      if f = s.feature then
        (lookupA f acc).map (fun t => if t.effect_size < s.effect_size then s else t)
      else lookupA f acc := by
  intro acc
  induction acc with
  | nil =>
    simp only [List.map_nil]
    split <;> rfl
  | cons q acc ih =>
    simp only [List.map_cons]
    rw [lookupA_cons, lookupA_cons]
    have hkey : (if q.1 = s.feature ∧ q.2.effect_size < s.effect_size
        then (q.1, s) else q).1 = q.1 := by
      split <;> rfl
    rw [hkey]
    by_cases hqf : q.1 = f
    · by_cases hfs : f = s.feature
      · by_cases heff : q.2.effect_size < s.effect_size
        · simp [hqf, hfs, heff]
        · simp [hqf, hfs, heff]
      · have hqs : ¬ q.1 = s.feature := fun hh => hfs (hqf.symm.trans hh)
        simp [hqf, hfs, hqs]
    · simp only [if_neg hqf]
      exact ih

/-- Lookup after one dictionary step: the step only affects the key of
the incoming split's feature, where it performs the strict-replacement
`bestStep`. -/
theorem lookupA_update_best (acc : List (String × SplitResult)) (s : SplitResult)
    (f : String) :
    lookupA f (update_best acc s) =
      if s.feature = f then some (bestStep (lookupA f acc) s)
      else lookupA f acc := by
  unfold update_best
  split
  next hfind =>
    rw [lookupA_map_replace]
    by_cases hfs : f = s.feature
    · rw [if_pos hfs, if_pos hfs.symm]
      cases hla : lookupA f acc with
      | none =>
        exfalso
        rw [hfs] at hla
        unfold lookupA at hla
        rw [Option.map_eq_none'] at hla
        rw [hla] at hfind
        simp at hfind
      | some t => simp [bestStep]
    · rw [if_neg hfs, if_neg (fun hh => hfs hh.symm)]
  next hfind =>
    rw [lookupA_append]
    by_cases hfs : f = s.feature
    · have hnone : lookupA f acc = none := by
        unfold lookupA
        rw [hfs]
        cases hfd : acc.find? (fun p => p.1 == s.feature) with
        | none => rfl
        | some q => rw [hfd] at hfind; simp at hfind
      rw [if_pos hfs.symm, hnone]
      simp [lookupA_cons, hfs.symm, bestStep, lookupA]
    · have hsf : ¬ s.feature = f := fun hh => hfs hh.symm
      rw [if_neg hsf]
      cases hla : lookupA f acc with
      | some t => simp [hla]
      | none => simp [hla, lookupA_cons, hsf, lookupA]

/-- The dictionary fold computes, per feature, the running best of that
feature's candidates in encounter order. -/
theorem fold_update_lookup (f : String) :
    ∀ (l : List SplitResult) (acc : List (String × SplitResult)),
      lookupA f (l.foldl update_best acc) =
        run_best_opt (lookupA f acc) (l.filter (fun s => s.feature == f)) := by
  intro l
  induction l with
  | nil =>
    intro acc
    rw [List.foldl_nil, List.filter_nil]
    cases h : lookupA f acc with
    | none => rfl
    | some t => rfl
  | cons s l ih =>
    intro acc
    rw [List.foldl_cons, ih (update_best acc s), lookupA_update_best]
    by_cases hsf : s.feature = f
    · rw [if_pos hsf, List.filter_cons_of_pos (by simp [hsf])]
      cases h : lookupA f acc with
      | none => simp [run_best_opt, bestStep]
      | some t => simp [run_best_opt, bestStep, run_best_cons]
    · rw [if_neg hsf, List.filter_cons_of_neg (by simp [hsf])]

/-- One dictionary step preserves well-formedness. -/
theorem update_best_good (acc : List (String × SplitResult)) (s : SplitResult)
    (h : goodMap acc) : goodMap (update_best acc s) := by
  obtain ⟨hnd, hfeat⟩ := h
  unfold update_best
  split
  next hfind =>
    constructor
    · have hkeys : (acc.map (fun p =>
          if p.1 = s.feature ∧ p.2.effect_size < s.effect_size then (p.1, s) else p)).map
            (fun p => p.1) = acc.map (fun p => p.1) := by
        rw [List.map_map]
        apply List.map_congr_left
        intro p _
        dsimp only [Function.comp]
        split <;> rfl
      rw [hkeys]
      exact hnd
    · intro p hp
      rcases List.mem_map.mp hp with ⟨q, hq, hqe⟩
      by_cases hc : q.1 = s.feature ∧ q.2.effect_size < s.effect_size
      · rw [if_pos hc] at hqe
        rw [← hqe]
        exact hc.1.symm
      · rw [if_neg hc] at hqe
        rw [← hqe]
        exact hfeat q hq
  next hfind =>
    have hnone : acc.find? (fun p => p.1 == s.feature) = none :=
      Option.not_isSome_iff_eq_none.mp hfind
    constructor
    · rw [List.map_append]
      refine List.Nodup.append hnd (by simp) ?_
      intro x hx hx2
      simp only [List.map_cons, List.map_nil, List.mem_singleton] at hx2
      subst hx2
      rcases List.mem_map.mp hx with ⟨q, hq, hqe⟩
      have h2 := List.find?_eq_none.mp hnone q hq
      simp only [beq_iff_eq] at h2
      exact h2 hqe
    · intro p hp
      rcases List.mem_append.mp hp with h1 | h1
      · exact hfeat p h1
      · simp only [List.mem_singleton] at h1
        rw [h1]
  
/-- The whole dictionary fold preserves well-formedness. -/
theorem foldl_update_good : ∀ (l : List SplitResult)
    (acc : List (String × SplitResult)),
    goodMap acc → goodMap (l.foldl update_best acc) := by
  intro l
  induction l with
  | nil => intro acc h; exact h
  | cons s l ih => intro acc h; exact ih _ (update_best_good acc s h)

/-- In a well-formed dictionary, membership determines the lookup. -/
theorem mem_lookupA : ∀ (m : List (String × SplitResult)), goodMap m →
    ∀ (f : String) (s : SplitResult), (f, s) ∈ m → lookupA f m = some s := by
  intro m
  induction m with
  | nil => intro _ f s h; simp at h
  | cons q m ih =>
    intro hg f s h
    obtain ⟨hnd, hfeat⟩ := hg
    rw [List.map_cons] at hnd
    have hnd2 := List.nodup_cons.mp hnd
    rw [lookupA_cons]
    rcases List.mem_cons.mp h with h1 | h1
    · rw [← h1]
      simp
    · have hne : ¬ q.1 = f := by
        intro hqf
        have hfk : f ∈ m.map (fun p => p.1) := List.mem_map.mpr ⟨(f, s), h1, rfl⟩
        exact hnd2.1 (hqf ▸ hfk)
      rw [if_neg hne]
      exact ih ⟨hnd2.2, fun p hp => hfeat p (List.mem_cons_of_mem _ hp)⟩ f s h1

/-- Inverting a successful `get_top_splits_per_feature` call. -/
theorem get_top_elim (o : StatsOracle) (a : FeatureAnalyzer)
    (m : List (String × SplitResult))
    (hm : get_top_splits_per_feature o a = Except.ok m) :
    ∃ l, find_best_splits o a 5 = Except.ok l ∧ m = l.foldl update_best [] := by
  unfold get_top_splits_per_feature at hm
  cases h : find_best_splits o a 5 with
  | error e => rw [h] at hm; exact absurd hm (by simp [Except.map])
  | ok l =>
    rw [h] at hm
    exact ⟨l, rfl, by simpa [Except.map] using hm.symm⟩

/-- C6: every entry of `get_top_splits_per_feature` is one of that
feature's splits in the ranked list, its effect size dominates every
split of the same feature there, and among that feature's splits in
ranked order it is the first one attaining the maximal effect size
(ties keep the first encountered). -/
theorem c6_top (o : StatsOracle) (a : FeatureAnalyzer) (l : List SplitResult)
    (m : List (String × SplitResult)) (f : String) (s : SplitResult)
    (hl : find_best_splits o a 5 = Except.ok l)
    (hm : get_top_splits_per_feature o a = Except.ok m)
    (hfs : (f, s) ∈ m) :
    s ∈ l ∧ s.feature = f
    ∧ (∀ s2 ∈ l, s2.feature = f → s2.effect_size ≤ s.effect_size)
    ∧ (l.filter (fun x => x.feature == f)).find?
        (fun x => x.effect_size == s.effect_size) = some s := by
  obtain ⟨l2, hl2, hm2⟩ := get_top_elim o a m hm
  rw [hl] at hl2
  injection hl2 with hl2
  subst hl2
  subst hm2
  have hgood : goodMap (l.foldl update_best []) :=
    foldl_update_good l [] ⟨by simp, by simp⟩
  have hlook := mem_lookupA _ hgood f s hfs
  rw [fold_update_lookup] at hlook
  cases hfil : l.filter (fun x => x.feature == f) with
  | nil =>
    rw [hfil] at hlook
    exact absurd hlook (by simp [run_best_opt, lookupA])
  | cons c cs =>
    rw [hfil] at hlook
    have hlook2 : some (run_best c cs) = some s := hlook
    injection hlook2 with hbest
    have hmem : s ∈ c :: cs := hbest ▸ run_best_mem cs c
    have hmemfil : s ∈ l.filter (fun x => x.feature == f) := by
      rw [hfil]; exact hmem
    refine ⟨List.mem_of_mem_filter hmemfil, ?_, ?_, ?_⟩
    · have := (List.mem_filter.mp hmemfil).2
      simpa using this
    · intro s2 hs2 hf2
      have hs2f : s2 ∈ l.filter (fun x => x.feature == f) :=
        List.mem_filter.mpr ⟨hs2, by simp [hf2]⟩
      rw [hfil] at hs2f
      have := run_best_max cs c s2 hs2f
      rwa [hbest] at this
    · have h := run_best_first cs c
      rw [hbest] at h
      exact h

/-- C6 witness: the kept split of feature `g` on `dfA` dominates both
`g` splits in the ranked list. -/
theorem c6_top_witness :
    (mapA.getD 0 ("", junkSplit)).2 ∈ listA
    ∧ (∀ s2 ∈ listA, s2.feature = (mapA.getD 0 ("", junkSplit)).1 →
        s2.effect_size ≤ (mapA.getD 0 ("", junkSplit)).2.effect_size) := by
  have hl : find_best_splits trivOracle analyzerA 5 = Except.ok listA := by
    with_unfolding_all rfl
  have hm : get_top_splits_per_feature trivOracle analyzerA = Except.ok mapA := by
    with_unfolding_all rfl
  have hfs : ((mapA.getD 0 ("", junkSplit)).1, (mapA.getD 0 ("", junkSplit)).2)
      ∈ mapA := by
    with_unfolding_all exact List.mem_cons_self _ _
  have h := c6_top trivOracle analyzerA listA mapA
    (mapA.getD 0 ("", junkSplit)).1 (mapA.getD 0 ("", junkSplit)).2 hl hm hfs
  exact ⟨h.1, h.2.2.1⟩
